import Mathlib

/-!
Verification development for TranscribeIT (`script.js`).

The core of the program is `wordEditDistance` (script.js lines 2–67): a
word-level Levenshtein dynamic program over two token sequences followed by a
traceback that marks mismatching positions in each sequence.  The surrounding
result workflow (`showResult`, lines 183–234, and `saveHistoryRecord`,
lines 237–241) tokenizes the stored passage and typed text, calls
`wordEditDistance`, derives gross WPM, net WPM and accuracy, and appends a
record to the persisted history.

Embedding conventions:
* JavaScript arrays of words become `List String`; `===` on strings is Lean
  string equality; in-range index accesses `a[k]` become `List.getD a k ""`.
* The DP matrix `dp` (filled at lines 23–39) is embedded cell-wise: `dpCell`
  computes the value the filled matrix holds at `(i, j)`, defined by exactly
  the expressions of lines 24, 25 and 29–36 (the `prevRow`/`currRow` arrays
  allocated at lines 11–14 are dead code in the source: the program never
  reads them back).  The fill order of the nested loops is irrelevant to
  the values, so a recursive definition of the cell values is a faithful
  embedding; it is structured as a row-by-row recursion so that it also
  evaluates by kernel reduction.
* JavaScript numbers appearing in the result workflow are modeled as `ℚ`,
  with division wrapped in `jsDiv : ℚ → ℚ → Option ℚ`: dividing a finite
  number by zero in JavaScript yields `Infinity`, `-Infinity` or `NaN`, all
  modeled here as `none` (a non-finite value); any finite result is `some`.
-/

/-- Inner recursion for one row of the DP matrix of script.js lines 23–39.
`prev` is row `i - 1` as a function of the column, `w` is
`originalWords[i-1]`, `i0` is the row index (so column 0 holds `i0`, line 24).
Column `j + 1` holds the value of lines 29–36: `prev j` on a token match,
otherwise `Math.min(dp[i-1][j]+1, dp[i][j-1]+1, dp[i-1][j-1]+1)` in the
source's operand order. -/
def dpRowAux (prev : ℕ → ℕ) (w : String) (t : List String) (i0 : ℕ) : ℕ → ℕ
  | 0 => i0
  | j + 1 =>
    if w = t.getD j "" then prev j
    else min (prev (j + 1) + 1) (min (dpRowAux prev w t i0 j + 1) (prev j + 1))

/-- Row `i` of the DP matrix of script.js lines 23–39, as a function of the
column index.  Row 0 holds `j` at column `j` (line 25). -/
def dpCellRow (o t : List String) : ℕ → ℕ → ℕ
  | 0 => fun j => j
  | i + 1 => dpRowAux (dpCellRow o t i) (o.getD i "") t (i + 1)

/-- Value held at `dp[i][j]` after the fill of script.js lines 23–39. -/
def dpCell (o t : List String) (i j : ℕ) : ℕ := dpCellRow o t i j

/-- Effect of `while(k > 0){ mark[k-1] = true; k--; }` (script.js lines 63
and 64) on a marking list: set positions `0 … k - 1` to `true`. -/
def markFirst : ℕ → List Bool → List Bool
  | 0, l => l
  | k + 1, l => markFirst k (l.set k true)

/-- One row of the traceback loop of script.js lines 45–62, at reference
index `i + 1` (so the current reference token is `originalWords[i]`).
`next j` continues the loop at `(i, j)`; the local recursion on `j` is the
insertion branch (lines 55–57), which keeps `i` fixed.  The argument order of
the branches matches the source: token match (lines 46–47), substitution
(lines 48–51), deletion (lines 52–54), insertion (lines 55–57), fallback
(lines 58–61).  Reaching column 0 exits the `while(i > 0 && j > 0)` loop and
runs the boundary loops of lines 63–64 (here only line 63 acts, as `j = 0`). -/
def tbAux (o t : List String) (i : ℕ)
    (next : ℕ → List Bool → List Bool → List Bool × List Bool) :
    ℕ → List Bool → List Bool → List Bool × List Bool
  | 0, om, tm => (markFirst (i + 1) om, tm)
  | j + 1, om, tm =>
    if o.getD i "" = t.getD j "" then next j om tm
    else if dpCell o t (i + 1) (j + 1) = dpCell o t i j + 1 then
      next j (om.set i true) (tm.set j true)
    else if dpCell o t (i + 1) (j + 1) = dpCell o t i (j + 1) + 1 then
      next (j + 1) (om.set i true) tm
    else if dpCell o t (i + 1) (j + 1) = dpCell o t (i + 1) j + 1 then
      tbAux o t i next j om (tm.set j true)
    else next j om tm

/-- The traceback of script.js lines 41–64, started at `(i, j)` with marking
lists `om` (reference side) and `tm` (typed side).  When `i = 0` the main
loop exits and only the boundary loop of line 64 acts. -/
def traceback (o t : List String) : ℕ → ℕ → List Bool → List Bool → List Bool × List Bool
  | 0, j, om, tm => (om, markFirst j tm)
  | i + 1, j, om, tm => tbAux o t i (traceback o t i) j om tm

/-- Result object returned at script.js line 66. -/
structure EditResult where
  errors : ℕ
  originalMark : List Bool
  typedMark : List Bool
deriving DecidableEq, Repr

/-- Embedding of `wordEditDistance` (script.js lines 2–67): DP fill
(lines 23–39), traceback from `(m, n)` over fresh all-`false` marking arrays
(lines 41–64), and the returned object `{errors: dp[m][n], originalMark,
typedMark}` (line 66). -/
def wordEditDistance (originalWords typedWords : List String) : EditResult :=
  let m := originalWords.length
  let n := typedWords.length
  let marks := traceback originalWords typedWords m n
    (List.replicate m false) (List.replicate n false)
  ⟨dpCell originalWords typedWords m n, marks.1, marks.2⟩

/-- Modelled from the spec: the token-level Levenshtein distance of §4.1,
with base cases `distance(i, 0) = i`, `distance(0, j) = j` and recurrence
`distance(i,j) = distance(i-1,j-1)` on a token match, otherwise
`1 + min(distance(i-1,j-1), distance(i-1,j), distance(i,j-1))`.  Inner
recursion for one row, in the same style as `dpRowAux`. -/
def specRowAux (prev : ℕ → ℕ) (w : String) (t : List String) (i0 : ℕ) : ℕ → ℕ
  | 0 => i0
  | j + 1 =>
    if w = t.getD j "" then prev j
    else 1 + min (prev j) (min (prev (j + 1)) (specRowAux prev w t i0 j))

/-- Modelled from the spec: row `i` of the §4.1 distance table. -/
def specRow (o t : List String) : ℕ → ℕ → ℕ
  | 0 => fun j => j
  | i + 1 => specRowAux (specRow o t i) (o.getD i "") t (i + 1)

/-- Modelled from the spec: `distance(i, j)` of §4.1. -/
def specDistance (o t : List String) (i j : ℕ) : ℕ := specRow o t i j

/-- Tokenization used by `showResult` (script.js lines 188–189):
`text.trim().split(/\s+/).filter(w => w.length > 0)`, i.e. the maximal runs
of non-whitespace characters, in order.  `cur` accumulates the current run in
reverse. -/
def splitWordsAux : List Char → List Char → List String
  | [], cur => if cur.isEmpty then [] else [String.mk cur.reverse]
  | c :: rest, cur =>
    if c.isWhitespace then
      if cur.isEmpty then splitWordsAux rest []
      else String.mk cur.reverse :: splitWordsAux rest []
    else splitWordsAux rest (c :: cur)

/-- Token sequence of a raw text (script.js lines 188–189). -/
def tokenize (s : String) : List String := splitWordsAux s.data []

/-- JavaScript division of finite operands: `none` models the non-finite
results `Infinity`, `-Infinity` and `NaN`, produced exactly when the
denominator is zero. -/
def jsDiv (a b : ℚ) : Option ℚ := if b = 0 then none else some (a / b)

/-- Record pushed onto the history at script.js line 239 (passage, typed
text, the three derived metrics and the error count; the timestamp is
omitted).  Numeric fields are `Option ℚ`: `none` is a non-finite number. -/
structure HistoryRecord where
  passage : String
  typed : String
  grossWPM : Option ℚ
  netWPM : Option ℚ
  accuracy : Option ℚ
  errors : ℕ
deriving DecidableEq, Repr

/-- Numeric core of `showResult` (script.js lines 183–199): tokenize both
texts (lines 188–189), run `wordEditDistance` (line 194) and compute
`grossWPM = wordsTypedCount / timeTaken` (line 192),
`netWPM = (wordsTypedCount - mistakes) / timeTaken` (line 196) and
`accuracy = (wordsTypedCount - mistakes) / wordsTypedCount * 100` (line 197).
The resulting record is both displayed (lines 203–209) and passed to
`saveHistoryRecord` (line 199) with no guard on any of the values.
`timeTaken` is the stored elapsed time (floored to 0.01 at line 186, hence
nonzero); rounding by `toFixed(2)` is omitted as it affects no claim. -/
def showResult (passage typed : String) (timeTaken : ℚ) : HistoryRecord :=
  let originalWords := tokenize passage
  let typedWords := tokenize typed
  let wordsTypedCount := typedWords.length
  let editRes := wordEditDistance originalWords typedWords
  let mistakes := editRes.errors
  { passage := passage
    typed := typed
    grossWPM := jsDiv (wordsTypedCount : ℚ) timeTaken
    netWPM := jsDiv ((wordsTypedCount : ℚ) - (mistakes : ℚ)) timeTaken
    accuracy := (jsDiv ((wordsTypedCount : ℚ) - (mistakes : ℚ)) (wordsTypedCount : ℚ)).map (· * 100)
    errors := mistakes }

/-- Embedding of `saveHistoryRecord` (script.js lines 237–241): append the
record to the persisted history, unconditionally. -/
def saveHistoryRecord (history : List HistoryRecord) (r : HistoryRecord) : List HistoryRecord :=
  history ++ [r]

/-! Equation lemmas for `dpCell` and `specDistance`. -/

lemma dpCell_zero_left (o t : List String) (j : ℕ) : dpCell o t 0 j = j := rfl

lemma dpCell_zero_right (o t : List String) (i : ℕ) : dpCell o t i 0 = i := by
  cases i <;> rfl

lemma dpCell_succ_succ (o t : List String) (i j : ℕ) :
    dpCell o t (i + 1) (j + 1) =
      if o.getD i "" = t.getD j "" then dpCell o t i j
      else min (dpCell o t i (j + 1) + 1)
        (min (dpCell o t (i + 1) j + 1) (dpCell o t i j + 1)) := rfl

lemma specDistance_zero_left (o t : List String) (j : ℕ) : specDistance o t 0 j = j := rfl

lemma specDistance_zero_right (o t : List String) (i : ℕ) : specDistance o t i 0 = i := by
  cases i <;> rfl

lemma specDistance_succ_succ (o t : List String) (i j : ℕ) :
    specDistance o t (i + 1) (j + 1) =
      if o.getD i "" = t.getD j "" then specDistance o t i j
      else 1 + min (specDistance o t i j)
        (min (specDistance o t i (j + 1)) (specDistance o t (i + 1) j)) := rfl

/-- The source's cell expression (operands of `Math.min` in the order of
lines 32–36) computes the spec's §4.1 recurrence. -/
lemma dpCell_eq_specDistance (o t : List String) : ∀ i j, dpCell o t i j = specDistance o t i j := by
  intro i
  induction i with
  | zero => intro j; rfl
  | succ i ih =>
    intro j
    induction j with
    | zero => rfl
    | succ j ihj =>
      rw [dpCell_succ_succ, specDistance_succ_succ]
      by_cases h : o.getD i "" = t.getD j ""
      · simp only [if_pos h, ih]
      · simp only [if_neg h]
        have h1 := ih j
        have h2 := ih (j + 1)
        omega

/-- Symmetry of the DP cell values: swapping the two sequences transposes the
matrix. -/
lemma dpCell_symm (o t : List String) : ∀ i j, dpCell o t i j = dpCell t o j i := by
  intro i
  induction i with
  | zero => intro j; rw [dpCell_zero_left, dpCell_zero_right]
  | succ i ih =>
    intro j
    induction j with
    | zero => rw [dpCell_zero_left, dpCell_zero_right]
    | succ j ihj =>
      rw [dpCell_succ_succ, dpCell_succ_succ]
      by_cases h : o.getD i "" = t.getD j ""
      · rw [if_pos h, if_pos h.symm, ih]
      · rw [if_neg h, if_neg (Ne.symm h)]
        have h1 := ih j
        have h2 := ih (j + 1)
        omega

/-- Each DP cell is bounded by the larger of its indices. -/
lemma dpCell_le_max (o t : List String) : ∀ i j, dpCell o t i j ≤ max i j := by
  intro i
  induction i with
  | zero => intro j; rw [dpCell_zero_left]; omega
  | succ i ih =>
    intro j
    induction j with
    | zero => rw [dpCell_zero_right]; omega
    | succ j ihj =>
      rw [dpCell_succ_succ]
      by_cases h : o.getD i "" = t.getD j ""
      · rw [if_pos h]
        have h1 := ih j
        omega
      · rw [if_neg h]
        have h1 := ih j
        omega

/-- On the diagonal of `wordEditDistance A A` every comparison is a match, so
the cell value is 0. -/
lemma dpCell_self_diag (A : List String) : ∀ i, dpCell A A i i = 0 := by
  intro i
  induction i with
  | zero => rfl
  | succ i ih => rw [dpCell_succ_succ, if_pos rfl, ih]

/-! Lemmas about the marking lists. -/

lemma markFirst_length (k : ℕ) : ∀ l : List Bool, (markFirst k l).length = l.length := by
  induction k with
  | zero => intro l; rfl
  | succ k ih => intro l; rw [markFirst, ih, List.length_set]

lemma set_at_append_length {α : Type} (a b : α) :
    ∀ (l₁ l₂ : List α), (l₁ ++ b :: l₂).set l₁.length a = l₁ ++ a :: l₂ := by
  intro l₁
  induction l₁ with
  | nil => intro l₂; rfl
  | cons c l₁ ih =>
    intro l₂
    simp only [List.cons_append, List.length_cons, List.set]
    exact congrArg _ (ih l₂)

/-- The boundary loops of lines 63–64 turn a fresh all-`false` marking list
into an all-`true` one. -/
lemma markFirst_replicate :
    ∀ (n : ℕ) (rest : List Bool),
      markFirst n (List.replicate n false ++ rest) = List.replicate n true ++ rest := by
  intro n
  induction n with
  | zero => intro rest; rfl
  | succ n ih =>
    intro rest
    have hlen : (List.replicate n false).length = n := List.length_replicate n false
    have hset := set_at_append_length true false (List.replicate n false) rest
    rw [hlen] at hset
    rw [markFirst, List.replicate_succ' n false, List.append_assoc, List.singleton_append,
      hset, ih, List.replicate_succ' n true, List.append_assoc, List.singleton_append]

lemma markFirst_replicate_nil (n : ℕ) :
    markFirst n (List.replicate n false) = List.replicate n true := by
  have h := markFirst_replicate n []
  simpa using h

/-! Lemmas about the traceback. -/

/-- `tbAux` preserves the lengths of both marking lists, provided its
continuation does. -/
lemma tbAux_length (o t : List String) (i : ℕ)
    (next : ℕ → List Bool → List Bool → List Bool × List Bool)
    (hnext : ∀ j om tm, ((next j om tm).1.length = om.length ∧
      (next j om tm).2.length = tm.length)) :
    ∀ j om tm, ((tbAux o t i next j om tm).1.length = om.length ∧
      (tbAux o t i next j om tm).2.length = tm.length) := by
  intro j
  induction j with
  | zero =>
    intro om tm
    exact ⟨markFirst_length _ om, rfl⟩
  | succ j ih =>
    intro om tm
    rw [tbAux]
    by_cases h1 : o.getD i "" = t.getD j ""
    · rw [if_pos h1]; exact hnext j om tm
    · rw [if_neg h1]
      by_cases h2 : dpCell o t (i + 1) (j + 1) = dpCell o t i j + 1
      · rw [if_pos h2]
        have := hnext j (om.set i true) (tm.set j true)
        simpa [List.length_set] using this
      · rw [if_neg h2]
        by_cases h3 : dpCell o t (i + 1) (j + 1) = dpCell o t i (j + 1) + 1
        · rw [if_pos h3]
          have := hnext (j + 1) (om.set i true) tm
          simpa [List.length_set] using this
        · rw [if_neg h3]
          by_cases h4 : dpCell o t (i + 1) (j + 1) = dpCell o t (i + 1) j + 1
          · rw [if_pos h4]
            have := ih om (tm.set j true)
            simpa [List.length_set] using this
          · rw [if_neg h4]; exact hnext j om tm

/-- The traceback preserves the lengths of both marking lists. -/
lemma traceback_length (o t : List String) :
    ∀ i j om tm, ((traceback o t i j om tm).1.length = om.length ∧
      (traceback o t i j om tm).2.length = tm.length) := by
  intro i
  induction i with
  | zero => intro j om tm; exact ⟨rfl, markFirst_length _ tm⟩
  | succ i ih => intro j om tm; exact tbAux_length o t i (traceback o t i) (ih) j om tm

/-- On identical sequences the traceback only takes the match branch, so the
marking lists come back unchanged. -/
lemma traceback_self (A : List String) :
    ∀ i om tm, traceback A A i i om tm = (om, tm) := by
  intro i
  induction i with
  | zero => intro om tm; rfl
  | succ i ih =>
    intro om tm
    rw [traceback, tbAux, if_pos rfl]
    exact ih om tm

/-- Behaviour of `wordEditDistance` on an empty reference: the main traceback
loop never runs and line 64 marks every typed position. -/
lemma wordEditDistance_nil_left (t : List String) :
    wordEditDistance [] t = ⟨t.length, [], List.replicate t.length true⟩ := by
  show (⟨dpCell [] t 0 t.length,
    (traceback [] t 0 t.length [] (List.replicate t.length false)).1,
    (traceback [] t 0 t.length [] (List.replicate t.length false)).2⟩ : EditResult) = _
  rw [show traceback [] t 0 t.length [] (List.replicate t.length false) =
    ([], markFirst t.length (List.replicate t.length false)) from rfl]
  rw [dpCell_zero_left, markFirst_replicate_nil]

/-- The traceback started at column 0: the main loop never runs and line 63
marks the first `i` reference positions. -/
lemma traceback_zero_right (o t : List String) (i : ℕ) (om tm : List Bool) :
    traceback o t i 0 om tm = (markFirst i om, tm) := by
  cases i <;> rfl

/-- Behaviour of `wordEditDistance` on an empty typed sequence: the main
traceback loop never runs and line 63 marks every reference position. -/
lemma wordEditDistance_nil_right (o : List String) :
    wordEditDistance o [] = ⟨o.length, List.replicate o.length true, []⟩ := by
  show (⟨dpCell o [] o.length 0,
    (traceback o [] o.length 0 (List.replicate o.length false) []).1,
    (traceback o [] o.length 0 (List.replicate o.length false) []).2⟩ : EditResult) = _
  rw [traceback_zero_right, dpCell_zero_right, markFirst_replicate_nil]

/-- C1: for every pair of token sequences, the `errors` field returned by
`wordEditDistance` (the filled cell `dp[m][n]`, line 66) equals the spec's
token-level Levenshtein distance `distance(m, n)`, defined by the §4.1 base
cases and recurrence with exact case-sensitive token equality. -/
theorem wordEditDistance_errors_eq_specDistance (o t : List String) :
    (wordEditDistance o t).errors = specDistance o t o.length t.length :=
  dpCell_eq_specDistance o t o.length t.length

/-- C2: the traceback follows the fixed priority order match, substitution,
deletion, insertion.  On the spec's concrete scenario 2 it yields 2 errors
with reference marks `[false, true, false, true]` and typed marks
`[false, true, false]`; on `["x"]` versus `["a", "b"]`, where substitution
and insertion tie at the minimum, it prefers substitution and then marks the
remaining typed position after reaching the boundary. -/
theorem wordEditDistance_traceback_scenarios :
    wordEditDistance ["the", "quick", "brown", "fox"] ["the", "quikc", "brown"] =
      ⟨2, [false, true, false, true], [false, true, false]⟩ ∧
    wordEditDistance ["x"] ["a", "b"] = ⟨2, [true], [true, true]⟩ := by
  constructor <;> decide

/-- C3: with an empty reference, `errors = n` and every typed position is
marked while the reference marking is empty; with an empty typed sequence,
`errors = m` and every reference position is marked; with both empty the
result is zero errors and two empty markings. -/
theorem wordEditDistance_empty_inputs :
    (∀ t : List String, wordEditDistance [] t =
      ⟨t.length, [], List.replicate t.length true⟩) ∧
    (∀ o : List String, wordEditDistance o [] =
      ⟨o.length, List.replicate o.length true, []⟩) ∧
    wordEditDistance [] [] = ⟨0, [], []⟩ :=
  ⟨wordEditDistance_nil_left, wordEditDistance_nil_right, wordEditDistance_nil_left []⟩

/-- C5: whenever the current tokens differ, the DP cell `dp[i][j]` equals at
least one of `dp[i-1][j-1] + 1`, `dp[i-1][j] + 1`, `dp[i][j-1] + 1`, so the
defensive fallback branch of lines 58–61 is never executed during the
traceback. -/
theorem dpCell_mismatch_has_predecessor (o t : List String) (i j : ℕ)
    (h : o.getD i "" ≠ t.getD j "") :
    dpCell o t (i + 1) (j + 1) = dpCell o t i j + 1 ∨
    dpCell o t (i + 1) (j + 1) = dpCell o t i (j + 1) + 1 ∨
    dpCell o t (i + 1) (j + 1) = dpCell o t (i + 1) j + 1 := by
  rw [dpCell_succ_succ, if_neg h]
  omega

/-- Witness for C5 at the concrete mismatching input `["a"]`, `["b"]`. -/
theorem dpCell_mismatch_has_predecessor_witness :
    (["a"] : List String).getD 0 "" ≠ (["b"] : List String).getD 0 "" ∧
    (dpCell ["a"] ["b"] 1 1 = dpCell ["a"] ["b"] 0 0 + 1 ∨
     dpCell ["a"] ["b"] 1 1 = dpCell ["a"] ["b"] 0 1 + 1 ∨
     dpCell ["a"] ["b"] 1 1 = dpCell ["a"] ["b"] 1 0 + 1) :=
  ⟨by decide, dpCell_mismatch_has_predecessor ["a"] ["b"] 0 0 (by decide)⟩

/-- C6: the scalar edit distance is symmetric in its two arguments. -/
theorem wordEditDistance_errors_symm (A B : List String) :
    (wordEditDistance A B).errors = (wordEditDistance B A).errors :=
  dpCell_symm A B A.length B.length

/-- C7: the scalar edit distance never exceeds the length of the longer
sequence. -/
theorem wordEditDistance_errors_le_max (A B : List String) :
    (wordEditDistance A B).errors ≤ max A.length B.length :=
  dpCell_le_max A B A.length B.length

/-- C8: on identical sequences `wordEditDistance` returns zero errors and
two all-`false` marking vectors. -/
theorem wordEditDistance_self (A : List String) :
    wordEditDistance A A =
      ⟨0, List.replicate A.length false, List.replicate A.length false⟩ := by
  have h := traceback_self A A.length
    (List.replicate A.length false) (List.replicate A.length false)
  simp only [wordEditDistance, h, dpCell_self_diag]

/-- C9: for every length combination (identical tokens included, since the
statement is universal) `wordEditDistance` is a total function whose
reference marking vector has length `m` and whose typed marking vector has
length `n`; termination of the traceback is certified by the recursion
underlying `traceback`, in which every step strictly decreases an index. -/
theorem wordEditDistance_mark_lengths (o t : List String) :
    (wordEditDistance o t).originalMark.length = o.length ∧
    (wordEditDistance o t).typedMark.length = t.length := by
  have h := traceback_length o t o.length t.length
    (List.replicate o.length false) (List.replicate t.length false)
  simpa [wordEditDistance] using h

/-- C4: contrary to the guarded computation the spec asks for, with an empty
typed text and a non-empty passage `showResult` computes
`accuracy = (0 - 1) / 0 * 100`, a non-finite value (`-Infinity`, modeled as
`none`), and still hands the record to `saveHistoryRecord`, which appends it
to the persisted history unconditionally. -/
theorem showResult_zero_typed_propagates_nonfinite :
    (showResult "a" "" 1).accuracy = none ∧ (showResult "a" "" 1).errors = 1 ∧
    saveHistoryRecord [] (showResult "a" "" 1) = [showResult "a" "" 1] := by
  have h1 : tokenize "a" = ["a"] := by decide
  have h2 : tokenize "" = [] := by decide
  have h3 : (wordEditDistance ["a"] []).errors = 1 := by decide
  refine ⟨?_, ?_, rfl⟩
  · simp only [showResult, h1, h2, h3, List.length_nil]
    norm_num [jsDiv]
  · simp only [showResult, h1, h2, h3]

/-- C10: a reference of three words none of which match the single typed
word yields `errors = 3 > typedWordCount = 1`, so at `timeTaken = 1` the
`netWPM` and `accuracy` that `showResult` computes, displays and persists
are the negative values `-2` and `-200`. -/
theorem showResult_metrics_can_be_negative :
    (wordEditDistance ["a", "b", "c"] ["x"]).errors = 3 ∧
    (showResult "a b c" "x" 1).netWPM = some (-2) ∧
    (showResult "a b c" "x" 1).accuracy = some (-200) := by
  have h1 : tokenize "a b c" = ["a", "b", "c"] := by decide
  have h2 : tokenize "x" = ["x"] := by decide
  have h3 : (wordEditDistance ["a", "b", "c"] ["x"]).errors = 3 := by decide
  refine ⟨h3, ?_, ?_⟩
  · simp only [showResult, h1, h2, h3]
    norm_num [jsDiv]
  · simp only [showResult, h1, h2, h3]
    norm_num [jsDiv]
